import Mathlib

/-!
Verification of the resource-estimation engine of the
quantum-resource-estimator repository (src/App.js).

The engine is embedded shallowly over the reals: JavaScript numbers are
modelled by `ℝ`, `Math.floor`/`Math.ceil` by `Int.floor`/`Int.ceil`,
`Math.sqrt` by `Real.sqrt`, `Math.pow` by `Real.rpow` and `Math.log10 x`
by `Real.logb 10 x`.  Result objects whose fields are present only for
some code families are modelled with `Option` fields.
-/

set_option linter.unusedVariables false

namespace QRE

open Real

/-- Output record built by each `calculateParams` function in src/App.js.
The `d`, `n_ancilla` and `k` fields are set only by the distance-based
code families (surface, yoked, color); the LDPC-style families
(hypergraph, lifted) leave them absent. -/
structure Result where
  d : Option ℤ
  n_ancilla : Option ℝ
  epsilon_L : ℝ
  k : Option ℝ
  n : ℝ

/-- The six registered code identifiers (keys of `codeLibrary` in src/App.js). -/
inductive CodeId
  | surface
  | yoked_1d
  | yoked_2d
  | color
  | hypergraph
  | lifted
deriving DecidableEq

/-- Source: `codeLibrary.surface.calculateParams` (src/App.js lines 900-919).
`pr` is the source's local `p_ratio = p / 0.011`. -/
noncomputable def surfaceCalc (p n k : ℝ) : Result :=
  let pr := p / 0.011
  let d : ℤ := ⌊Real.sqrt (n / k)⌋
  { d := some d
    n_ancilla := some (k * (((d : ℝ) - 1) ^ 2 + 2 * ((d : ℝ) - 1)))
    epsilon_L := 0.03 * k * pr ^ ((d : ℝ) / 2)
    k := some k
    n := n }

/-- Source: `codeLibrary.yoked_1d.calculateParams` (src/App.js lines 924-946). -/
noncomputable def yoked1dCalc (p n k : ℝ) : Result :=
  let pr := p / 0.011
  let d_in : ℤ := ⌊Real.sqrt (n / k)⌋
  let mu_1d : ℝ := 1.8
  let d : ℤ := ⌊mu_1d * (d_in : ℝ)⌋
  { d := some d
    n_ancilla := some (k * (((d_in : ℝ) - 1) ^ 2 + 2 * ((d_in : ℝ) - 1)) * 1.2)
    epsilon_L := 0.03 * k * pr ^ ((⌈(d : ℝ) / 2⌉ : ℤ) : ℝ)
    k := some k
    n := n }

/-- Source: `codeLibrary.yoked_2d.calculateParams` (src/App.js lines 951-973). -/
noncomputable def yoked2dCalc (p n k : ℝ) : Result :=
  let pr := p / 0.011
  let d_in : ℤ := ⌊Real.sqrt (n / k)⌋
  let mu_2d : ℝ := 3.2
  let d : ℤ := ⌊mu_2d * (d_in : ℝ)⌋
  { d := some d
    n_ancilla := some (k * (((d_in : ℝ) - 1) ^ 2 + 2 * ((d_in : ℝ) - 1)) * 1.5)
    epsilon_L := 0.03 * k * pr ^ ((⌈(d : ℝ) / 2⌉ : ℤ) : ℝ)
    k := some k
    n := n }

/-- Source: `codeLibrary.color.calculateParams` (src/App.js lines 978-998). -/
noncomputable def colorCalc (p n k : ℝ) : Result :=
  let pr := p / 0.0036
  let d : ℤ := ⌊Real.sqrt (n / k)⌋
  { d := some d
    n_ancilla := some (k * (((d : ℝ) - 1) ^ 2 + 2 * ((d : ℝ) - 1)))
    epsilon_L := 0.03 * k * pr ^ ((⌈(d : ℝ) / 2⌉ : ℤ) : ℝ)
    k := some k
    n := n }

/-- Source: `codeLibrary.hypergraph.calculateParams` (src/App.js lines 1004-1015).
The `k` parameter is accepted but unused, as in the source. -/
noncomputable def hypergraphCalc (p n k : ℝ) : Result :=
  let pr := p / 0.006
  { d := none
    n_ancilla := none
    epsilon_L := 0.07 * pr ^ (0.47 * n ^ (0.27 : ℝ))
    k := none
    n := n }

/-- Source: `codeLibrary.lifted.calculateParams` (src/App.js lines 1020-1031). -/
noncomputable def liftedCalc (p n k : ℝ) : Result :=
  let pr := p / 0.0066
  { d := none
    n_ancilla := none
    epsilon_L := 2.3 * pr ^ (0.11 * n ^ (0.6 : ℝ))
    k := none
    n := n }

/-- An entry of the code registry: its threshold field and its forward rule. -/
structure CodeModel where
  threshold : ℝ
  calculateParams : ℝ → ℝ → ℝ → Result

/-- Source: the `codeLibrary` registry object (src/App.js lines 896-1033),
with each entry's `threshold` field. -/
noncomputable def codeLibrary : CodeId → CodeModel
  | .surface => ⟨0.011, surfaceCalc⟩
  | .yoked_1d => ⟨0.011, yoked1dCalc⟩
  | .yoked_2d => ⟨0.011, yoked2dCalc⟩
  | .color => ⟨0.0036, colorCalc⟩
  | .hypergraph => ⟨0.006, hypergraphCalc⟩
  | .lifted => ⟨0.0066, liftedCalc⟩

/-- The Forward Evaluator: dispatch on the code id and apply its
`calculateParams` rule (the engine's `evaluate` entry point). -/
noncomputable def evaluate (c : CodeId) (p n k : ℝ) : Result :=
  (codeLibrary c).calculateParams p n k

/-- The string key under which each code is registered in `codeLibrary`. -/
def idString : CodeId → String
  | .surface => "surface"
  | .yoked_1d => "yoked_1d"
  | .yoked_2d => "yoked_2d"
  | .color => "color"
  | .hypergraph => "hypergraph"
  | .lifted => "lifted"

/-- Source: the dynamic lookup `codeLibrary[code]` (src/App.js line 1040),
which yields the entry for a registered key and `undefined` (here `none`)
otherwise. -/
noncomputable def lookupCode : String → Option CodeModel
  | "surface" => some (codeLibrary .surface)
  | "yoked_1d" => some (codeLibrary .yoked_1d)
  | "yoked_2d" => some (codeLibrary .yoked_2d)
  | "color" => some (codeLibrary .color)
  | "hypergraph" => some (codeLibrary .hypergraph)
  | "lifted" => some (codeLibrary .lifted)
  | _ => none

/-- The exposed evaluator keyed by code id string: look the code up and run
its forward rule; `none` models the NotFound outcome for unknown ids.
There is no other failure path in the source: `calculateParams` is applied
unconditionally to whatever numbers are supplied. -/
noncomputable def evaluateById (id : String) (p n k : ℝ) : Option Result :=
  (lookupCode id).map fun cm => cm.calculateParams p n k

/-- Source: `toLogScale` (src/App.js lines 874-878). -/
noncomputable def toLogScale (value mn mx : ℝ) : ℝ :=
  let minLog := Real.logb 10 mn
  let maxLog := Real.logb 10 mx
  (Real.logb 10 value - minLog) / (maxLog - minLog) * 100

/-- Source: `fromLogScale` (src/App.js lines 881-885). -/
noncomputable def fromLogScale (value mn mx : ℝ) : ℝ :=
  let minLog := Real.logb 10 mn
  let maxLog := Real.logb 10 mx
  (10 : ℝ) ^ (minLog + value / 100 * (maxLog - minLog))

/-- Threshold constants p_th exactly as listed in the spec's section-4.1
table (the compatibility surface of the specification). -/
noncomputable def specThreshold : CodeId → ℝ
  | .surface => 0.011
  | .yoked_1d => 0.011
  | .yoked_2d => 0.011
  | .color => 0.0036
  | .hypergraph => 0.006
  | .lifted => 0.0066

/-- Ancilla scale factor of the spec's section 4.1: 1.2 for the 1D-yoke
variant, 1.5 for the 2D-yoke variant, 1.0 (no extra factor) otherwise. -/
noncomputable def specAncillaScale : CodeId → ℝ
  | .yoked_1d => 1.2
  | .yoked_2d => 1.5
  | _ => 1.0

/-- Reference definition of the Forward Evaluator transcribed from the
spec's section-4.1 table and its ancilla-count paragraph: `d_in` is the
inner unmultiplied distance, the reported `d` is `d_in` for surface and
color and the yoke-multiplied `⌊mu * d_in⌋` for the yoked variants, the
logical error rate is the tabulated power law in `p / p_th`, and
`n_ancilla = scale * (k * ((d_in - 1)^2 + 2 * (d_in - 1)))`. -/
noncomputable def specEvaluate (c : CodeId) (p n k : ℝ) : Result :=
  let pth := specThreshold c
  let d_in : ℤ := ⌊Real.sqrt (n / k)⌋
  let ancilla : ℝ := specAncillaScale c * (k * (((d_in : ℝ) - 1) ^ 2 + 2 * ((d_in : ℝ) - 1)))
  match c with
  | .surface =>
      ⟨some d_in, some ancilla, 0.03 * k * (p / pth) ^ ((d_in : ℝ) / 2), some k, n⟩
  | .color =>
      ⟨some d_in, some ancilla, 0.03 * k * (p / pth) ^ ((⌈(d_in : ℝ) / 2⌉ : ℤ) : ℝ), some k, n⟩
  | .yoked_1d =>
      let d : ℤ := ⌊(1.8 : ℝ) * (d_in : ℝ)⌋
      ⟨some d, some ancilla, 0.03 * k * (p / pth) ^ ((⌈(d : ℝ) / 2⌉ : ℤ) : ℝ), some k, n⟩
  | .yoked_2d =>
      let d : ℤ := ⌊(3.2 : ℝ) * (d_in : ℝ)⌋
      ⟨some d, some ancilla, 0.03 * k * (p / pth) ^ ((⌈(d : ℝ) / 2⌉ : ℤ) : ℝ), some k, n⟩
  | .hypergraph =>
      ⟨none, none, 0.07 * (p / pth) ^ (0.47 * n ^ (0.27 : ℝ)), none, n⟩
  | .lifted =>
      ⟨none, none, 2.3 * (p / pth) ^ (0.11 * n ^ (0.6 : ℝ)), none, n⟩

/-- State of a bisection search over n (local variables `nMin`, `nMax`,
`n`, and the pair `minDiff` / `bestResult` of the source loops; the
absent pair, JavaScript `minDiff = Infinity` with `bestResult = null`,
is modelled by `none`).  The `n` field mirrors the loop variable holding
the most recently evaluated midpoint (`generatePlotData` initialises it
to `nMin`; `findRequiredN` never reads it after the loop). -/
structure SearchState where
  nMin : ℝ
  nMax : ℝ
  n : ℝ
  best : Option (ℝ × Result)

/-- `|log10(epsilon_L) - log10(target)|`, the distance minimised by both
search loops. -/
noncomputable def diffOf (target : ℝ) (r : Result) : ℝ :=
  |Real.logb 10 r.epsilon_L - Real.logb 10 target|

/-- The floored midpoint `Math.floor((nMin + nMax) / 2)` of the bracket. -/
noncomputable def midN (s : SearchState) : ℝ :=
  ((⌊(s.nMin + s.nMax) / 2⌋ : ℤ) : ℝ)

/-- The forward evaluation performed at the current midpoint. -/
noncomputable def stepEval (cm : CodeModel) (p k : ℝ) (s : SearchState) : Result :=
  cm.calculateParams p (midN s) k

/-- The `if (diff < minDiff) { minDiff = diff; bestResult = result; }`
update of both source loops. -/
noncomputable def updateBest (target : ℝ) (r : Result) :
    Option (ℝ × Result) → Option (ℝ × Result)
  | none => some (diffOf target r, r)
  | some (m, b) => if diffOf target r < m then some (diffOf target r, r) else some (m, b)

/-- One iteration of the shared bisection body (src/App.js lines
1288-1303 and 1218-1238, before the curve loop's ceiling check):
evaluate the midpoint, update the best-seen pair, then move `nMin` up to
the midpoint when `epsilon_L` still exceeds the target, else move `nMax`
down to it. -/
noncomputable def searchStep (cm : CodeModel) (p k target : ℝ) (s : SearchState) :
    SearchState :=
  let r := stepEval cm p k s
  let best := updateBest target r s.best
  if r.epsilon_L > target then
    { nMin := midN s, nMax := s.nMax, n := midN s, best := best }
  else
    { nMin := s.nMin, nMax := midN s, n := midN s, best := best }

/-- The fixed-count loop of `findRequiredN` (20 iterations, no early exit). -/
noncomputable def pointLoop (cm : CodeModel) (p k target : ℝ) :
    ℕ → SearchState → SearchState
  | 0, s => s
  | j + 1, s => pointLoop cm p k target j (searchStep cm p k target s)

/-- The inner loop of `generatePlotData` (up to 30 iterations, breaking
as soon as the updated lower bound exceeds the 1e9 sanity ceiling). -/
noncomputable def curveLoop (cm : CodeModel) (p k target : ℝ) :
    ℕ → SearchState → SearchState
  | 0, s => s
  | j + 1, s =>
    let s' := searchStep cm p k target s
    if s'.nMin > 1e9 then s' else curveLoop cm p k target j s'

/-- The list of midpoint results evaluated by `pointLoop`. -/
noncomputable def pointEvals (cm : CodeModel) (p k target : ℝ) :
    ℕ → SearchState → List Result
  | 0, _ => []
  | j + 1, s =>
    stepEval cm p k s :: pointEvals cm p k target j (searchStep cm p k target s)

/-- The list of midpoint results evaluated by `curveLoop`. -/
noncomputable def curveEvals (cm : CodeModel) (p k target : ℝ) :
    ℕ → SearchState → List Result
  | 0, _ => []
  | j + 1, s =>
    let s' := searchStep cm p k target s
    if s'.nMin > 1e9 then [stepEval cm p k s]
    else stepEval cm p k s :: curveEvals cm p k target j s'

/-- Initial bracket of `findRequiredN`: `nMin = 10`, `nMax = 1e6`. -/
noncomputable def pointSearchInit : SearchState := ⟨10, 1e6, 10, none⟩

/-- Initial bracket of `generatePlotData`'s inner search: `nMin = 10`,
`nMax = 1e10`, `n = nMin`. -/
noncomputable def curveSearchInit : SearchState := ⟨10, 1e10, 10, none⟩

/-- Source: `findRequiredN` (src/App.js lines 1273-1306): `null`
(`none`) if `p >= threshold`, otherwise the `bestResult` retained by 20
bisection iterations over [10, 1e6]. -/
noncomputable def findRequiredN (c : CodeId) (p target k : ℝ) : Option Result :=
  let cm := codeLibrary c
  if p ≥ cm.threshold then none
  else ((pointLoop cm p k target 20 pointSearchInit).best).map Prod.snd

/-- The state left by the curve sampler's inner 30-iteration search. -/
noncomputable def curveRun (c : CodeId) (p target k : ℝ) : SearchState :=
  curveLoop (codeLibrary c) p k target 30 curveSearchInit

/-- The midpoints evaluated by `findRequiredN`'s search. -/
noncomputable def pointEvalsOf (c : CodeId) (p target k : ℝ) : List Result :=
  pointEvals (codeLibrary c) p k target 20 pointSearchInit

/-- The midpoints evaluated by the curve sampler's inner search. -/
noncomputable def curveEvalsOf (c : CodeId) (p target k : ℝ) : List Result :=
  curveEvals (codeLibrary c) p k target 30 curveSearchInit

/-- Source: the i-th sample point of `generatePlotData` (src/App.js line
1201): 50 log-spaced p values from 1e-6 up to threshold * 0.99. -/
noncomputable def plotP (c : CodeId) (i : ℕ) : ℝ :=
  (10 : ℝ) ^ (Real.logb 10 1e-6 +
    (Real.logb 10 ((codeLibrary c).threshold * 0.99) - Real.logb 10 1e-6) * ((i : ℝ) / 49))

/-- Source: the implied logical-qubit count reported by `generatePlotData`
(src/App.js lines 1248-1258): k = max(1, floor(0.04 n)) for hypergraph,
k = max(1, floor(0.38 n^0.85)) for lifted, 1 otherwise. -/
noncomputable def impliedK (c : CodeId) (physicalQubits : ℝ) : ℝ :=
  match c with
  | .hypergraph => max 1 ((⌊0.04 * physicalQubits⌋ : ℤ) : ℝ)
  | .lifted => max 1 ((⌊0.38 * physicalQubits ^ (0.85 : ℝ)⌋ : ℤ) : ℝ)
  | _ => 1

/-- Source: the sampling loop of `generatePlotData` (src/App.js lines
1200-1262), producing the `pValues`, `nValues` and `kValues` arrays from
loop index `i` with `fuel` indices remaining.  The loop breaks before
pushing `p` when `p >= threshold`, and breaks after pushing `p` but
before pushing `n` when the inner search's best result needs more than
1e9 qubits. -/
noncomputable def genLoop (c : CodeId) (epsL k : ℝ) :
    ℕ → ℕ → List ℝ × List ℝ × List ℝ
  | 0, _ => ([], [], [])
  | fuel + 1, i =>
    let cm := codeLibrary c
    let p := plotP c i
    if p ≥ cm.threshold then ([], [], [])
    else
      let s := curveLoop cm p k epsL 30 curveSearchInit
      match s.best with
      | some mb =>
          if mb.2.n > 1e9 then ([p], [], [])
          else
            let rest := genLoop c epsL k fuel (i + 1)
            (p :: rest.1, mb.2.n :: rest.2.1, impliedK c mb.2.n :: rest.2.2)
      | none =>
          let rest := genLoop c epsL k fuel (i + 1)
          (p :: rest.1, s.n :: rest.2.1, impliedK c s.n :: rest.2.2)

/-- Source: `generatePlotData(code, epsilon_L, k)` (src/App.js lines
1190-1270) restricted to its three sample arrays. -/
noncomputable def generatePlotData (c : CodeId) (epsL k : ℝ) :
    List ℝ × List ℝ × List ℝ :=
  genLoop c epsL k 50 0

/-- C6: for fixed positive bounds min < max and every v in [min, max], the
log-scale round trip returns v (exactly in real arithmetic, hence within
1e-9 relative error), toLogScale(min) = 0 and toLogScale(max) = 100. -/
theorem c6_logscale_roundtrip (mn mx v : ℝ) (hmn : 0 < mn) (hlt : mn < mx)
    (hv1 : mn ≤ v) (hv2 : v ≤ mx) :
    fromLogScale (toLogScale v mn mx) mn mx = v ∧
    |fromLogScale (toLogScale v mn mx) mn mx - v| ≤ 1e-9 * v ∧
    toLogScale mn mn mx = 0 ∧
    toLogScale mx mn mx = 100 := by
  have hv0 : 0 < v := lt_of_lt_of_le hmn hv1
  have hL : Real.logb 10 mn < Real.logb 10 mx :=
    Real.logb_lt_logb (by norm_num) hmn hlt
  have hLne : Real.logb 10 mx - Real.logb 10 mn ≠ 0 := sub_ne_zero.mpr hL.ne'
  have key : fromLogScale (toLogScale v mn mx) mn mx = v := by
    simp only [fromLogScale, toLogScale]
    rw [show Real.logb 10 mn +
        (Real.logb 10 v - Real.logb 10 mn) / (Real.logb 10 mx - Real.logb 10 mn) * 100 / 100 *
          (Real.logb 10 mx - Real.logb 10 mn) = Real.logb 10 v by
      field_simp
      ring]
    exact Real.rpow_logb (by norm_num) (by norm_num) hv0
  refine ⟨key, ?_, ?_, ?_⟩
  · rw [key, sub_self, abs_zero]
    positivity
  · simp only [toLogScale, sub_self, zero_div, zero_mul]
  · simp only [toLogScale]
    rw [div_self hLne, one_mul]

/-- Witness for C6 at (min, max, v) = (1, 100, 10). -/
theorem c6_witness :
    fromLogScale (toLogScale 10 1 100) 1 100 = 10 ∧
    |fromLogScale (toLogScale 10 1 100) 1 100 - 10| ≤ 1e-9 * 10 ∧
    toLogScale 1 1 100 = 0 ∧
    toLogScale 100 1 100 = 100 :=
  c6_logscale_roundtrip 1 100 10 (by norm_num) (by norm_num) (by norm_num) (by norm_num)

/-- Helper: compute an integer square-root floor from bracketing squares. -/
theorem floor_sqrt_eq {x : ℝ} {z : ℤ} (h0 : 0 ≤ (z : ℝ)) (h1 : (z : ℝ) ^ 2 ≤ x)
    (h2 : x < ((z : ℝ) + 1) ^ 2) : ⌊Real.sqrt x⌋ = z := by
  rw [Int.floor_eq_iff]
  refine ⟨?_, ?_⟩
  · calc (z : ℝ) = Real.sqrt ((z : ℝ) ^ 2) := (Real.sqrt_sq h0).symm
    _ ≤ Real.sqrt x := Real.sqrt_le_sqrt h1
  · calc Real.sqrt x < Real.sqrt (((z : ℝ) + 1) ^ 2) :=
        Real.sqrt_lt_sqrt (le_trans (sq_nonneg _) h1) h2
    _ = (z : ℝ) + 1 := Real.sqrt_sq (by linarith)

/-- C1: for every registered code id and all p in (0,1), integers
n >= k >= 1, the source evaluator returns exactly the section-4.1
reference definition (thresholds, distance definitions, exponents and
scaled ancilla counts). -/
theorem c1_evaluate_matches_spec (c : CodeId) (p : ℝ) (n k : ℕ)
    (hp0 : 0 < p) (hp1 : p < 1) (hk : 1 ≤ k) (hnk : k ≤ n) :
    evaluate c p (n : ℝ) (k : ℝ) = specEvaluate c p (n : ℝ) (k : ℝ) := by
  cases c <;>
    simp only [evaluate, codeLibrary, surfaceCalc, yoked1dCalc, yoked2dCalc, colorCalc,
      hypergraphCalc, liftedCalc, specEvaluate, specThreshold, specAncillaScale,
      Result.mk.injEq, Option.some.inj] <;>
    norm_num <;>
    ring

/-- Witness for C1 at (surface, p = 0.001, n = 1000, k = 1). -/
theorem c1_witness :
    evaluate CodeId.surface 0.001 ((1000 : ℕ) : ℝ) ((1 : ℕ) : ℝ) =
      specEvaluate CodeId.surface 0.001 ((1000 : ℕ) : ℝ) ((1 : ℕ) : ℝ) :=
  c1_evaluate_matches_spec CodeId.surface 0.001 1000 1 (by norm_num) (by norm_num)
    (by norm_num) (by norm_num)

/-- C2: the section-8 surface-code test vectors: evaluate(surface,
p=0.001, n=1000, k=1) gives d = 31, n_ancilla = 960 and
epsilon_L = 0.03 * (0.001/0.011)^15.5, and evaluate(surface, p=0.001,
n=9, k=1) gives d = 3 and n_ancilla = 8. -/
theorem c2_surface_test_vectors :
    (evaluate CodeId.surface 0.001 1000 1).d = some 31 ∧
    (evaluate CodeId.surface 0.001 1000 1).n_ancilla = some 960 ∧
    (evaluate CodeId.surface 0.001 1000 1).epsilon_L =
      0.03 * (0.001 / 0.011) ^ (15.5 : ℝ) ∧
    (evaluate CodeId.surface 0.001 9 1).d = some 3 ∧
    (evaluate CodeId.surface 0.001 9 1).n_ancilla = some 8 := by
  have h1000 : ⌊Real.sqrt ((1000 : ℝ) / 1)⌋ = (31 : ℤ) := by
    apply floor_sqrt_eq <;> norm_num
  have h9 : ⌊Real.sqrt ((9 : ℝ) / 1)⌋ = (3 : ℤ) := by
    apply floor_sqrt_eq <;> norm_num
  simp only [evaluate, codeLibrary, surfaceCalc, h1000, h9]
  norm_num

/-- C3: for every registered code, any target and any k, if p is at or
above the code's threshold constant then the inverse solver returns the
distinguished NoSolution value (none) rather than a Result. -/
theorem c3_no_solution_at_threshold (c : CodeId) (p target k : ℝ)
    (h : (codeLibrary c).threshold ≤ p) :
    findRequiredN c p target k = none := by
  unfold findRequiredN
  exact if_pos h

/-- Witness for C3 at (surface, p = 0.011 = threshold, target = 1e-6, k = 1). -/
theorem c3_witness : findRequiredN CodeId.surface 0.011 1e-6 1 = none :=
  c3_no_solution_at_threshold CodeId.surface 0.011 1e-6 1
    (by norm_num [codeLibrary])

/-- The best-seen update always yields a pair. -/
theorem updateBest_isSome (target : ℝ) (r : Result) (o : Option (ℝ × Result)) :
    (updateBest target r o).isSome := by
  cases o with
  | none => rfl
  | some mb =>
      obtain ⟨m, b⟩ := mb
      simp only [updateBest]
      split <;> rfl

/-- Properties of one best-seen update: the retained distance belongs to
the retained result, it is at most the distance of the new evaluation,
the retained result is the new one or the previous pair, and the
retained distance never increases. -/
theorem updateBest_spec (target : ℝ) (r : Result) (o : Option (ℝ × Result))
    (ho : ∀ m b, o = some (m, b) → m = diffOf target b) :
    ∀ m' b', updateBest target r o = some (m', b') →
      m' = diffOf target b' ∧ m' ≤ diffOf target r ∧
      (b' = r ∨ o = some (m', b')) ∧
      (∀ m₀ b₀, o = some (m₀, b₀) → m' ≤ m₀) := by
  intro m' b' h
  cases o with
  | none =>
      simp only [updateBest] at h
      obtain ⟨hm, hb⟩ := Prod.mk.injEq .. ▸ Option.some.inj h
      subst hm; subst hb
      exact ⟨rfl, le_refl _, Or.inl rfl, by intro m₀ b₀ h₀; cases h₀⟩
  | some mb =>
      obtain ⟨m, b⟩ := mb
      have hmb : m = diffOf target b := ho m b rfl
      simp only [updateBest] at h
      by_cases hlt : diffOf target r < m
      · rw [if_pos hlt] at h
        obtain ⟨hm, hb⟩ := Prod.mk.injEq .. ▸ Option.some.inj h
        subst hm; subst hb
        refine ⟨rfl, le_refl _, Or.inl rfl, ?_⟩
        intro m₀ b₀ h₀
        obtain ⟨hm0, _⟩ := Prod.mk.injEq .. ▸ Option.some.inj h₀
        exact hm0 ▸ le_of_lt hlt
      · rw [if_neg hlt] at h
        obtain ⟨hm, hb⟩ := Prod.mk.injEq .. ▸ Option.some.inj h
        subst hm; subst hb
        refine ⟨hmb, not_lt.mp hlt, Or.inr rfl, ?_⟩
        intro m₀ b₀ h₀
        obtain ⟨hm0, _⟩ := Prod.mk.injEq .. ▸ Option.some.inj h₀
        exact le_of_eq hm0

/-- Both branches of a bisection step carry the same best-seen update. -/
theorem searchStep_best (cm : CodeModel) (p k target : ℝ) (s : SearchState) :
    (searchStep cm p k target s).best =
      updateBest target (stepEval cm p k s) s.best := by
  simp only [searchStep]
  split <;> rfl

/-- Invariant of the 20-iteration point-query loop: the retained pair
records the distance of its own result, that result is one of the
evaluated midpoints (or was inherited from the initial state), and its
distance is minimal among all midpoints evaluated. -/
theorem pointLoop_spec (cm : CodeModel) (p k target : ℝ) :
    ∀ (j : ℕ) (s : SearchState),
      (∀ m b, s.best = some (m, b) → m = diffOf target b) →
      ∀ m b, (pointLoop cm p k target j s).best = some (m, b) →
        m = diffOf target b ∧
        (b ∈ pointEvals cm p k target j s ∨ s.best = some (m, b)) ∧
        (∀ r ∈ pointEvals cm p k target j s, m ≤ diffOf target r) ∧
        (∀ m₀ b₀, s.best = some (m₀, b₀) → m ≤ m₀) := by
  intro j
  induction j with
  | zero =>
      intro s hs m b hmb
      simp only [pointLoop] at hmb
      refine ⟨hs m b hmb, Or.inr hmb, ?_, ?_⟩
      · intro r hr
        simp only [pointEvals, List.not_mem_nil] at hr
      · intro m₀ b₀ h₀
        rw [hmb] at h₀
        obtain ⟨hm0, _⟩ := Prod.mk.injEq .. ▸ Option.some.inj h₀
        exact le_of_eq hm0
  | succ j ih =>
      intro s hs m b hmb
      have hstep := updateBest_spec target (stepEval cm p k s) s.best hs
      have hs'best := searchStep_best cm p k target s
      have hs' : ∀ m b, (searchStep cm p k target s).best = some (m, b) →
          m = diffOf target b := by
        intro m1 b1 h1
        rw [hs'best] at h1
        exact (hstep m1 b1 h1).1
      simp only [pointLoop] at hmb
      obtain ⟨ih1, ih2, ih3, ih4⟩ := ih (searchStep cm p k target s) hs' m b hmb
      obtain ⟨⟨m1, b1⟩, hm1⟩ :=
        Option.isSome_iff_exists.mp
          (hs'best ▸ updateBest_isSome target (stepEval cm p k s) s.best)
      have hub := hstep m1 b1 (hs'best ▸ hm1)
      have hm_le_m1 : m ≤ m1 := ih4 m1 b1 hm1
      refine ⟨ih1, ?_, ?_, ?_⟩
      · simp only [pointEvals]
        rcases ih2 with hin | hpass
        · exact Or.inl (List.mem_cons_of_mem _ hin)
        · have hp := hstep m b (hs'best ▸ hpass)
          rcases hp.2.2.1 with hbr | hold
          · exact Or.inl (hbr ▸ List.mem_cons_self _ _)
          · exact Or.inr hold
      · simp only [pointEvals]
        intro r hr
        rcases List.mem_cons.mp hr with hr1 | hr2
        · rw [hr1]
          exact le_trans hm_le_m1 hub.2.1
        · exact ih3 r hr2
      · intro m₀ b₀ h₀
        exact le_trans hm_le_m1 (hub.2.2.2 m₀ b₀ h₀)

/-- A bisection step always leaves a best-seen pair. -/
theorem searchStep_best_isSome (cm : CodeModel) (p k target : ℝ) (s : SearchState) :
    (searchStep cm p k target s).best.isSome := by
  rw [searchStep_best]
  exact updateBest_isSome target (stepEval cm p k s) s.best

/-- The point loop preserves the presence of a best-seen pair. -/
theorem pointLoop_isSome (cm : CodeModel) (p k target : ℝ) :
    ∀ (j : ℕ) (s : SearchState), s.best.isSome →
      (pointLoop cm p k target j s).best.isSome := by
  intro j
  induction j with
  | zero => intro s h; simpa only [pointLoop] using h
  | succ j ih =>
      intro s h
      simp only [pointLoop]
      exact ih _ (searchStep_best_isSome cm p k target s)

/-- After at least one iteration the point loop holds a best-seen pair. -/
theorem pointLoop_succ_isSome (cm : CodeModel) (p k target : ℝ) (j : ℕ)
    (s : SearchState) : (pointLoop cm p k target (j + 1) s).best.isSome := by
  simp only [pointLoop]
  exact pointLoop_isSome cm p k target j _ (searchStep_best_isSome cm p k target s)

/-- The curve loop preserves the presence of a best-seen pair. -/
theorem curveLoop_isSome (cm : CodeModel) (p k target : ℝ) :
    ∀ (j : ℕ) (s : SearchState), s.best.isSome →
      (curveLoop cm p k target j s).best.isSome := by
  intro j
  induction j with
  | zero => intro s h; simpa only [curveLoop] using h
  | succ j ih =>
      intro s h
      simp only [curveLoop]
      split
      · exact searchStep_best_isSome cm p k target s
      · exact ih _ (searchStep_best_isSome cm p k target s)

/-- After at least one iteration the curve loop holds a best-seen pair. -/
theorem curveLoop_succ_isSome (cm : CodeModel) (p k target : ℝ) (j : ℕ)
    (s : SearchState) : (curveLoop cm p k target (j + 1) s).best.isSome := by
  simp only [curveLoop]
  split
  · exact searchStep_best_isSome cm p k target s
  · exact curveLoop_isSome cm p k target j _ (searchStep_best_isSome cm p k target s)

/-- The point loop evaluates exactly one midpoint per iteration. -/
theorem pointEvals_length (cm : CodeModel) (p k target : ℝ) :
    ∀ (j : ℕ) (s : SearchState), (pointEvals cm p k target j s).length = j := by
  intro j
  induction j with
  | zero => intro s; rfl
  | succ j ih =>
      intro s
      simp only [pointEvals, List.length_cons]
      rw [ih]

/-- The curve loop evaluates at most one midpoint per iteration. -/
theorem curveEvals_length_le (cm : CodeModel) (p k target : ℝ) :
    ∀ (j : ℕ) (s : SearchState), (curveEvals cm p k target j s).length ≤ j := by
  intro j
  induction j with
  | zero => intro s; simp [curveEvals]
  | succ j ih =>
      intro s
      simp only [curveEvals]
      split
      · simp
      · simp only [List.length_cons]
        exact Nat.succ_le_succ (ih _)

/-- Invariant of the curve sampler's inner loop (same statement as
`pointLoop_spec`, with the 1e9 early break taken into account). -/
theorem curveLoop_spec (cm : CodeModel) (p k target : ℝ) :
    ∀ (j : ℕ) (s : SearchState),
      (∀ m b, s.best = some (m, b) → m = diffOf target b) →
      ∀ m b, (curveLoop cm p k target j s).best = some (m, b) →
        m = diffOf target b ∧
        (b ∈ curveEvals cm p k target j s ∨ s.best = some (m, b)) ∧
        (∀ r ∈ curveEvals cm p k target j s, m ≤ diffOf target r) ∧
        (∀ m₀ b₀, s.best = some (m₀, b₀) → m ≤ m₀) := by
  intro j
  induction j with
  | zero =>
      intro s hs m b hmb
      simp only [curveLoop] at hmb
      refine ⟨hs m b hmb, Or.inr hmb, ?_, ?_⟩
      · intro r hr
        simp only [curveEvals, List.not_mem_nil] at hr
      · intro m₀ b₀ h₀
        rw [hmb] at h₀
        obtain ⟨hm0, _⟩ := Prod.mk.injEq .. ▸ Option.some.inj h₀
        exact le_of_eq hm0
  | succ j ih =>
      intro s hs m b hmb
      have hstep := updateBest_spec target (stepEval cm p k s) s.best hs
      have hs'best := searchStep_best cm p k target s
      simp only [curveLoop] at hmb
      simp only [curveEvals]
      by_cases hbr : (searchStep cm p k target s).nMin > 1e9
      · rw [if_pos hbr] at hmb
        rw [if_pos hbr]
        have hub := hstep m b (hs'best ▸ hmb)
        refine ⟨hub.1, ?_, ?_, hub.2.2.2⟩
        · rcases hub.2.2.1 with hbr' | hold
          · exact Or.inl (hbr' ▸ List.mem_singleton_self _)
          · exact Or.inr hold
        · intro r hr
          rw [List.mem_singleton.mp hr]
          exact hub.2.1
      · rw [if_neg hbr] at hmb
        rw [if_neg hbr]
        have hs' : ∀ m b, (searchStep cm p k target s).best = some (m, b) →
            m = diffOf target b := by
          intro m1 b1 h1
          rw [hs'best] at h1
          exact (hstep m1 b1 h1).1
        obtain ⟨ih1, ih2, ih3, ih4⟩ := ih (searchStep cm p k target s) hs' m b hmb
        obtain ⟨⟨m1, b1⟩, hm1⟩ :=
          Option.isSome_iff_exists.mp
            (hs'best ▸ updateBest_isSome target (stepEval cm p k s) s.best)
        have hub := hstep m1 b1 (hs'best ▸ hm1)
        have hm_le_m1 : m ≤ m1 := ih4 m1 b1 hm1
        refine ⟨ih1, ?_, ?_, ?_⟩
        · rcases ih2 with hin | hpass
          · exact Or.inl (List.mem_cons_of_mem _ hin)
          · have hp := hstep m b (hs'best ▸ hpass)
            rcases hp.2.2.1 with hbr' | hold
            · exact Or.inl (hbr' ▸ List.mem_cons_self _ _)
            · exact Or.inr hold
        · intro r hr
          rcases List.mem_cons.mp hr with hr1 | hr2
          · rw [hr1]
            exact le_trans hm_le_m1 hub.2.1
          · exact ih3 r hr2
        · intro m₀ b₀ h₀
          exact le_trans hm_le_m1 (hub.2.2.2 m₀ b₀ h₀)

/-- When the updated lower bound passes the 1e9 ceiling, the curve loop
stops at that iteration. -/
theorem curveLoop_break (cm : CodeModel) (p k target : ℝ) (j : ℕ) (s : SearchState)
    (h : (searchStep cm p k target s).nMin > 1e9) :
    curveLoop cm p k target (j + 1) s = searchStep cm p k target s := by
  simp only [curveLoop]
  rw [if_pos h]

/-- When the updated lower bound passes the 1e9 ceiling, exactly one
midpoint was evaluated at that iteration. -/
theorem curveEvals_break (cm : CodeModel) (p k target : ℝ) (j : ℕ) (s : SearchState)
    (h : (searchStep cm p k target s).nMin > 1e9) :
    curveEvals cm p k target (j + 1) s = [stepEval cm p k s] := by
  simp only [curveEvals]
  rw [if_pos h]

/-- C4 (amended): for p below threshold, the point query evaluates
exactly 20 midpoints and returns an evaluated midpoint result whose
log-distance to the target is minimal among all midpoints evaluated; the
curve sampler's inner search evaluates at most 30 midpoints (stopping
early once its lower bound exceeds 1e9) and likewise retains a minimal
evaluated midpoint, not necessarily the final bisection bound. -/
theorem c4_best_seen_bisection (c : CodeId) (p target k : ℝ)
    (hp : p < (codeLibrary c).threshold) :
    (pointEvalsOf c p target k).length = 20 ∧
    (∃ r, findRequiredN c p target k = some r ∧
      r ∈ pointEvalsOf c p target k ∧
      ∀ r' ∈ pointEvalsOf c p target k, diffOf target r ≤ diffOf target r') ∧
    (curveEvalsOf c p target k).length ≤ 30 ∧
    (∃ r, (curveRun c p target k).best = some (diffOf target r, r) ∧
      r ∈ curveEvalsOf c p target k ∧
      ∀ r' ∈ curveEvalsOf c p target k, diffOf target r ≤ diffOf target r') := by
  have hinit : ∀ m b, pointSearchInit.best = some (m, b) → m = diffOf target b := by
    intro m b h
    simp [pointSearchInit] at h
  have hinitc : ∀ m b, curveSearchInit.best = some (m, b) → m = diffOf target b := by
    intro m b h
    simp [curveSearchInit] at h
  simp only [pointEvalsOf, curveEvalsOf, curveRun, findRequiredN]
  rw [if_neg (not_le.mpr hp)]
  refine ⟨pointEvals_length _ _ _ _ 20 _, ?_, curveEvals_length_le _ _ _ _ 30 _, ?_⟩
  · obtain ⟨⟨m, r⟩, hmr⟩ := Option.isSome_iff_exists.mp
      (pointLoop_succ_isSome (codeLibrary c) p k target 19 pointSearchInit)
    obtain ⟨h1, h2, h3, _⟩ :=
      pointLoop_spec (codeLibrary c) p k target 20 pointSearchInit hinit m r hmr
    subst h1
    refine ⟨r, ?_, ?_, h3⟩
    · rw [hmr]
      rfl
    · rcases h2 with hin | hpass
      · exact hin
      · exact absurd hpass (by simp [pointSearchInit])
  · obtain ⟨⟨m, r⟩, hmr⟩ := Option.isSome_iff_exists.mp
      (curveLoop_succ_isSome (codeLibrary c) p k target 29 curveSearchInit)
    obtain ⟨h1, h2, h3, _⟩ :=
      curveLoop_spec (codeLibrary c) p k target 30 curveSearchInit hinitc m r hmr
    subst h1
    refine ⟨r, hmr, ?_, h3⟩
    rcases h2 with hin | hpass
    · exact hin
    · exact absurd hpass (by simp [curveSearchInit])

/-- Witness for C4 (amended) at (surface, p = 0.001, target = 1e-6, k = 1). -/
theorem c4_witness :
    (pointEvalsOf CodeId.surface 0.001 1e-6 1).length = 20 ∧
    (∃ r, findRequiredN CodeId.surface 0.001 1e-6 1 = some r ∧
      r ∈ pointEvalsOf CodeId.surface 0.001 1e-6 1 ∧
      ∀ r' ∈ pointEvalsOf CodeId.surface 0.001 1e-6 1,
        diffOf 1e-6 r ≤ diffOf 1e-6 r') ∧
    (curveEvalsOf CodeId.surface 0.001 1e-6 1).length ≤ 30 ∧
    (∃ r, (curveRun CodeId.surface 0.001 1e-6 1).best = some (diffOf 1e-6 r, r) ∧
      r ∈ curveEvalsOf CodeId.surface 0.001 1e-6 1 ∧
      ∀ r' ∈ curveEvalsOf CodeId.surface 0.001 1e-6 1,
        diffOf 1e-6 r ≤ diffOf 1e-6 r') :=
  c4_best_seen_bisection CodeId.surface 0.001 1e-6 1 (by norm_num [codeLibrary])

/-- Helper: the first midpoint of the curve bracket [10, 1e10]. -/
theorem midN_curveInit : midN curveSearchInit = 5000000005 := by
  simp only [midN, curveSearchInit]
  rw [show ((10 : ℝ) + 1e10) / 2 = ((5000000005 : ℤ) : ℝ) by norm_num,
    Int.floor_intCast]
  norm_num

/-- Helper: 5000000005 ^ 0.27 ≤ 450 (compare 100th powers). -/
theorem rpow27_le : (5000000005 : ℝ) ^ (0.27 : ℝ) ≤ 450 := by
  have hbase : (0 : ℝ) ≤ 5000000005 := by norm_num
  have hpow : ((5000000005 : ℝ) ^ (0.27 : ℝ)) ^ (100 : ℕ) ≤ (450 : ℝ) ^ (100 : ℕ) := by
    rw [← Real.rpow_natCast ((5000000005 : ℝ) ^ (0.27 : ℝ)) 100, ← Real.rpow_mul hbase]
    norm_num
  exact (pow_le_pow_iff_left₀ (Real.rpow_nonneg hbase _) (by norm_num) (by norm_num)).mp hpow

/-- Helper: at the first curve midpoint n = 5000000005, the hypergraph
error rate 0.07 * q ^ (0.47 * n^0.27) still exceeds 0.001 whenever the
ratio q is between its 212th-power bound and 1. -/
theorem hyper_eps_lower (q : ℝ) (hq0 : 0 < q) (hq1 : q ≤ 1)
    (hq : (0.001 : ℝ) < 0.07 * q ^ (212 : ℕ)) :
    (0.001 : ℝ) < 0.07 * q ^ (0.47 * (5000000005 : ℝ) ^ (0.27 : ℝ)) := by
  have hexp : 0.47 * (5000000005 : ℝ) ^ (0.27 : ℝ) ≤ 212 := by
    nlinarith [rpow27_le,
      Real.rpow_nonneg (show (0 : ℝ) ≤ 5000000005 by norm_num) (0.27 : ℝ)]
  have hmono : q ^ (212 : ℝ) ≤ q ^ (0.47 * (5000000005 : ℝ) ^ (0.27 : ℝ)) :=
    Real.rpow_le_rpow_of_exponent_ge hq0 hq1 hexp
  have h212 : q ^ (212 : ℝ) = q ^ (212 : ℕ) := by
    rw [show (212 : ℝ) = ((212 : ℕ) : ℝ) by norm_num, Real.rpow_natCast]
  have hmul := mul_le_mul_of_nonneg_left hmono (by norm_num : (0 : ℝ) ≤ 0.07)
  rw [← h212] at hq
  linarith

/-- Helper: at p = 0.00594, the first curve midpoint still has
epsilon_L above the target 0.001. -/
theorem c8_step_eps :
    (stepEval (codeLibrary CodeId.hypergraph) 0.00594 1 curveSearchInit).epsilon_L
      > 0.001 := by
  simp only [stepEval, codeLibrary, hypergraphCalc, midN_curveInit]
  rw [show (0.00594 : ℝ) / 0.006 = 0.99 by norm_num]
  exact hyper_eps_lower 0.99 (by norm_num) (by norm_num) (by norm_num)

/-- Helper: at p = 0.00594 the first bisection step pushes the lower
bound past the 1e9 sanity ceiling. -/
theorem c8_step_break :
    (searchStep (codeLibrary CodeId.hypergraph) 0.00594 1 0.001 curveSearchInit).nMin
      > 1e9 := by
  simp only [searchStep]
  rw [if_pos c8_step_eps]
  simp only [midN_curveInit]
  norm_num

/-- C8 counterexample: at (hypergraph, p = 0.00594 < threshold,
target = 0.001, k = 1) the curve search's lower bound exceeds the 1e9
ceiling at its very first iteration (so only 1 of 30 midpoints is
evaluated), yet the search still holds a best-seen Result — it does not
report NoSolution. -/
theorem c8_counterexample :
    (0.00594 : ℝ) < (codeLibrary CodeId.hypergraph).threshold ∧
    (curveRun CodeId.hypergraph 0.00594 0.001 1).nMin > 1e9 ∧
    (curveEvalsOf CodeId.hypergraph 0.00594 0.001 1).length = 1 ∧
    (curveRun CodeId.hypergraph 0.00594 0.001 1).best.isSome = true := by
  have heq : curveRun CodeId.hypergraph 0.00594 0.001 1 =
      searchStep (codeLibrary CodeId.hypergraph) 0.00594 1 0.001 curveSearchInit := by
    simp only [curveRun]
    rw [show (30 : ℕ) = 29 + 1 from rfl]
    exact curveLoop_break _ _ _ _ 29 _ c8_step_break
  refine ⟨by norm_num [codeLibrary], ?_, ?_, ?_⟩
  · rw [heq]
    exact c8_step_break
  · simp only [curveEvalsOf]
    rw [show (30 : ℕ) = 29 + 1 from rfl, curveEvals_break _ _ _ _ 29 _ c8_step_break]
    rfl
  · rw [heq]
    exact searchStep_best_isSome _ _ _ _ _

/-- C8 (amended): the solvers never report NoSolution for p below
threshold: the point solver (whose bracket never reaches the 1e9
ceiling) always returns a best-seen Result, and the curve search — which
does stop iterating as soon as its updated lower bound exceeds 1e9 —
also always retains a best-seen Result; the sampler, not the solver,
later drops over-budget points. -/
theorem c8_amended (c : CodeId) (p target k : ℝ)
    (hp : p < (codeLibrary c).threshold) :
    (findRequiredN c p target k).isSome = true ∧
    (curveRun c p target k).best.isSome = true ∧
    (∀ (j : ℕ) (s : SearchState),
      (searchStep (codeLibrary c) p k target s).nMin > 1e9 →
      curveLoop (codeLibrary c) p k target (j + 1) s =
        searchStep (codeLibrary c) p k target s) := by
  refine ⟨?_, ?_, ?_⟩
  · simp only [findRequiredN]
    rw [if_neg (not_le.mpr hp)]
    obtain ⟨⟨m, r⟩, hmr⟩ := Option.isSome_iff_exists.mp
      (pointLoop_succ_isSome (codeLibrary c) p k target 19 pointSearchInit)
    rw [hmr]
    rfl
  · exact curveLoop_succ_isSome (codeLibrary c) p k target 29 curveSearchInit
  · intro j s h
    exact curveLoop_break _ _ _ _ j s h

/-- Witness for C8 (amended) at (surface, p = 0.001, target = 1e-6, k = 1). -/
theorem c8_witness :
    (findRequiredN CodeId.surface 0.001 1e-6 1).isSome = true ∧
    (curveRun CodeId.surface 0.001 1e-6 1).best.isSome = true ∧
    (∀ (j : ℕ) (s : SearchState),
      (searchStep (codeLibrary CodeId.surface) 0.001 1 1e-6 s).nMin > 1e9 →
      curveLoop (codeLibrary CodeId.surface) 0.001 1 1e-6 (j + 1) s =
        searchStep (codeLibrary CodeId.surface) 0.001 1 1e-6 s) :=
  c8_amended CodeId.surface 0.001 1e-6 1 (by norm_num [codeLibrary])

/-- Helper: at p = 0.005994, the first curve midpoint still has
epsilon_L above the target 0.001. -/
theorem c4cex_step_eps :
    (stepEval (codeLibrary CodeId.hypergraph) 0.005994 1 curveSearchInit).epsilon_L
      > 0.001 := by
  simp only [stepEval, codeLibrary, hypergraphCalc, midN_curveInit]
  rw [show (0.005994 : ℝ) / 0.006 = 0.999 by norm_num]
  exact hyper_eps_lower 0.999 (by norm_num) (by norm_num) (by norm_num)

/-- Helper: at p = 0.005994 the first bisection step pushes the lower
bound past the 1e9 sanity ceiling. -/
theorem c4cex_step_break :
    (searchStep (codeLibrary CodeId.hypergraph) 0.005994 1 0.001 curveSearchInit).nMin
      > 1e9 := by
  simp only [searchStep]
  rw [if_pos c4cex_step_eps]
  simp only [midN_curveInit]
  norm_num

/-- C4 counterexample: at (hypergraph, p = 0.005994 < threshold,
target = 0.001, k = 1) the curve-sampling search evaluates exactly one
midpoint, not its fixed budget of 30: the 1e9 break ends the loop after
the first iteration. -/
theorem c4_counterexample :
    (0.005994 : ℝ) < (codeLibrary CodeId.hypergraph).threshold ∧
    (curveEvalsOf CodeId.hypergraph 0.005994 0.001 1).length = 1 := by
  refine ⟨by norm_num [codeLibrary], ?_⟩
  simp only [curveEvalsOf]
  rw [show (30 : ℕ) = 29 + 1 from rfl, curveEvals_break _ _ _ _ 29 _ c4cex_step_break]
  rfl

/-- Helper: the common epsilon_L comparison: for a ratio in (0,1] and a
larger exponent, the scaled power law does not increase. -/
theorem eps_power_mono (a r e₁ e₂ : ℝ) (ha : 0 ≤ a) (hr0 : 0 < r) (hr1 : r ≤ 1)
    (he : e₁ ≤ e₂) : a * r ^ e₂ ≤ a * r ^ e₁ :=
  mul_le_mul_of_nonneg_left (Real.rpow_le_rpow_of_exponent_ge hr0 hr1 he) ha

/-- C7 (amended): for every distance-based code, p in (0, threshold) and
integers n2 >= n1 >= k >= 1, increasing n weakly increases the returned
d and weakly decreases the returned epsilon_L.  (The strict version of
the claim fails: the floored distance plateaus, see the counterexample.) -/
theorem c7_weak_monotone (c : CodeId)
    (hc : c = CodeId.surface ∨ c = CodeId.yoked_1d ∨ c = CodeId.yoked_2d ∨
      c = CodeId.color)
    (p : ℝ) (n₁ n₂ k : ℕ) (hp0 : 0 < p) (hpt : p < (codeLibrary c).threshold)
    (hk : 1 ≤ k) (hkn : k ≤ n₁) (hn : n₁ ≤ n₂) :
    (∃ d₁ d₂ : ℤ, (evaluate c p (n₁ : ℝ) (k : ℝ)).d = some d₁ ∧
      (evaluate c p (n₂ : ℝ) (k : ℝ)).d = some d₂ ∧ d₁ ≤ d₂) ∧
    (evaluate c p (n₂ : ℝ) (k : ℝ)).epsilon_L ≤
      (evaluate c p (n₁ : ℝ) (k : ℝ)).epsilon_L := by
  have hk0 : (0 : ℝ) < (k : ℝ) := by exact_mod_cast hk
  have hdin : ⌊Real.sqrt ((n₁ : ℝ) / (k : ℝ))⌋ ≤ ⌊Real.sqrt ((n₂ : ℝ) / (k : ℝ))⌋ :=
    Int.floor_le_floor
      (Real.sqrt_le_sqrt ((div_le_div_right hk0).mpr (Nat.cast_le.mpr hn)))
  have hdinR : ((⌊Real.sqrt ((n₁ : ℝ) / (k : ℝ))⌋ : ℤ) : ℝ) ≤
      ((⌊Real.sqrt ((n₂ : ℝ) / (k : ℝ))⌋ : ℤ) : ℝ) := by exact_mod_cast hdin
  rcases hc with rfl | rfl | rfl | rfl
  · have hpt' : p < 0.011 := by simpa [codeLibrary] using hpt
    have hr0 : (0 : ℝ) < p / 0.011 := by positivity
    have hr1 : p / 0.011 ≤ 1 := by
      rw [div_le_one (by norm_num)]
      linarith
    simp only [evaluate, codeLibrary, surfaceCalc]
    refine ⟨⟨_, _, rfl, rfl, hdin⟩, ?_⟩
    exact eps_power_mono _ _ _ _ (by positivity) hr0 hr1 (by linarith)
  · have hpt' : p < 0.011 := by simpa [codeLibrary] using hpt
    have hr0 : (0 : ℝ) < p / 0.011 := by positivity
    have hr1 : p / 0.011 ≤ 1 := by
      rw [div_le_one (by norm_num)]
      linarith
    have hd : ⌊(1.8 : ℝ) * ((⌊Real.sqrt ((n₁ : ℝ) / (k : ℝ))⌋ : ℤ) : ℝ)⌋ ≤
        ⌊(1.8 : ℝ) * ((⌊Real.sqrt ((n₂ : ℝ) / (k : ℝ))⌋ : ℤ) : ℝ)⌋ :=
      Int.floor_le_floor (by nlinarith)
    have hdR : ((⌊(1.8 : ℝ) * ((⌊Real.sqrt ((n₁ : ℝ) / (k : ℝ))⌋ : ℤ) : ℝ)⌋ : ℤ) : ℝ) ≤
        ((⌊(1.8 : ℝ) * ((⌊Real.sqrt ((n₂ : ℝ) / (k : ℝ))⌋ : ℤ) : ℝ)⌋ : ℤ) : ℝ) := by
      exact_mod_cast hd
    simp only [evaluate, codeLibrary, yoked1dCalc]
    refine ⟨⟨_, _, rfl, rfl, hd⟩, ?_⟩
    refine eps_power_mono _ _ _ _ (by positivity) hr0 hr1 ?_
    exact Int.cast_le.mpr (Int.ceil_le_ceil (by linarith))
  · have hpt' : p < 0.011 := by simpa [codeLibrary] using hpt
    have hr0 : (0 : ℝ) < p / 0.011 := by positivity
    have hr1 : p / 0.011 ≤ 1 := by
      rw [div_le_one (by norm_num)]
      linarith
    have hd : ⌊(3.2 : ℝ) * ((⌊Real.sqrt ((n₁ : ℝ) / (k : ℝ))⌋ : ℤ) : ℝ)⌋ ≤
        ⌊(3.2 : ℝ) * ((⌊Real.sqrt ((n₂ : ℝ) / (k : ℝ))⌋ : ℤ) : ℝ)⌋ :=
      Int.floor_le_floor (by nlinarith)
    have hdR : ((⌊(3.2 : ℝ) * ((⌊Real.sqrt ((n₁ : ℝ) / (k : ℝ))⌋ : ℤ) : ℝ)⌋ : ℤ) : ℝ) ≤
        ((⌊(3.2 : ℝ) * ((⌊Real.sqrt ((n₂ : ℝ) / (k : ℝ))⌋ : ℤ) : ℝ)⌋ : ℤ) : ℝ) := by
      exact_mod_cast hd
    simp only [evaluate, codeLibrary, yoked2dCalc]
    refine ⟨⟨_, _, rfl, rfl, hd⟩, ?_⟩
    refine eps_power_mono _ _ _ _ (by positivity) hr0 hr1 ?_
    exact Int.cast_le.mpr (Int.ceil_le_ceil (by linarith))
  · have hpt' : p < 0.0036 := by simpa [codeLibrary] using hpt
    have hr0 : (0 : ℝ) < p / 0.0036 := by positivity
    have hr1 : p / 0.0036 ≤ 1 := by
      rw [div_le_one (by norm_num)]
      linarith
    simp only [evaluate, codeLibrary, colorCalc]
    refine ⟨⟨_, _, rfl, rfl, hdin⟩, ?_⟩
    refine eps_power_mono _ _ _ _ (by positivity) hr0 hr1 ?_
    exact Int.cast_le.mpr (Int.ceil_le_ceil (by linarith))

/-- Witness for C7 (amended) at (surface, p = 0.001, n1 = 9, n2 = 16, k = 1). -/
theorem c7_witness :
    (∃ d₁ d₂ : ℤ, (evaluate CodeId.surface 0.001 ((9 : ℕ) : ℝ) ((1 : ℕ) : ℝ)).d = some d₁ ∧
      (evaluate CodeId.surface 0.001 ((16 : ℕ) : ℝ) ((1 : ℕ) : ℝ)).d = some d₂ ∧ d₁ ≤ d₂) ∧
    (evaluate CodeId.surface 0.001 ((16 : ℕ) : ℝ) ((1 : ℕ) : ℝ)).epsilon_L ≤
      (evaluate CodeId.surface 0.001 ((9 : ℕ) : ℝ) ((1 : ℕ) : ℝ)).epsilon_L :=
  c7_weak_monotone CodeId.surface (Or.inl rfl) 0.001 9 16 1 (by norm_num)
    (by norm_num [codeLibrary]) (by norm_num) (by norm_num) (by norm_num)

/-- C7 counterexample: at surface, p = 0.001, k = 1, n1 = 100 < n2 = 101,
the returned distance does not strictly increase (both are 10) and the
returned epsilon_L does not strictly decrease (both are equal). -/
theorem c7_counterexample :
    (evaluate CodeId.surface 0.001 101 1).d = some 10 ∧
    (evaluate CodeId.surface 0.001 100 1).d = some 10 ∧
    (evaluate CodeId.surface 0.001 101 1).epsilon_L =
      (evaluate CodeId.surface 0.001 100 1).epsilon_L := by
  have h101 : ⌊Real.sqrt ((101 : ℝ) / 1)⌋ = (10 : ℤ) := by
    apply floor_sqrt_eq <;> norm_num
  have h100 : ⌊Real.sqrt ((100 : ℝ) / 1)⌋ = (10 : ℤ) := by
    apply floor_sqrt_eq <;> norm_num
  simp only [evaluate, codeLibrary, surfaceCalc, h101, h100]
  norm_num

/-- C9 (amended): the Forward Evaluator performs no input validation:
for every registered code id and arbitrary real inputs p, n, k
(non-positive included), it returns the numeric Result computed by the
formulas.  The only distinguished non-Result outcome is NotFound for an
unregistered id. -/
theorem c9_no_input_validation (c : CodeId) (p n k : ℝ) :
    evaluateById (idString c) p n k = some (evaluate c p n k) := by
  cases c <;> rfl

/-- C9 counterexample: with the non-positive input p = -1 the evaluator
does not return a distinguished InvalidParameter value: it returns a
numeric Result, computed as usual (d = 3 and n_ancilla = 8 at n = 9,
k = 1). -/
theorem c9_counterexample :
    evaluateById (idString CodeId.surface) (-1) 9 1 =
      some (evaluate CodeId.surface (-1) 9 1) ∧
    (evaluate CodeId.surface (-1) 9 1).d = some 3 ∧
    (evaluate CodeId.surface (-1) 9 1).n_ancilla = some 8 := by
  have h9 : ⌊Real.sqrt ((9 : ℝ) / 1)⌋ = (3 : ℤ) := by
    apply floor_sqrt_eq <;> norm_num
  refine ⟨rfl, ?_, ?_⟩ <;>
    simp only [evaluate, codeLibrary, surfaceCalc, h9] <;>
    norm_num

/-- C10: for every distance-based code, integers 1 <= n < k and any p in
(0,1), evaluate still returns a Result, with d = 0 and a strictly
negative ancilla count: -k for surface and color, -1.2k for yoked_1d and
-1.5k for yoked_2d (floor(sqrt(n/k)) = 0 makes the ancilla polynomial
equal -1). -/
theorem c10_degenerate_inputs (n k : ℕ) (p : ℝ) (h1 : 1 ≤ n) (h2 : n < k)
    (hp0 : 0 < p) (hp1 : p < 1) :
    (evaluate CodeId.surface p (n : ℝ) (k : ℝ)).d = some 0 ∧
    (evaluate CodeId.surface p (n : ℝ) (k : ℝ)).n_ancilla = some (-(k : ℝ)) ∧
    (evaluate CodeId.color p (n : ℝ) (k : ℝ)).d = some 0 ∧
    (evaluate CodeId.color p (n : ℝ) (k : ℝ)).n_ancilla = some (-(k : ℝ)) ∧
    (evaluate CodeId.yoked_1d p (n : ℝ) (k : ℝ)).d = some 0 ∧
    (evaluate CodeId.yoked_1d p (n : ℝ) (k : ℝ)).n_ancilla = some (-(1.2 * (k : ℝ))) ∧
    (evaluate CodeId.yoked_2d p (n : ℝ) (k : ℝ)).d = some 0 ∧
    (evaluate CodeId.yoked_2d p (n : ℝ) (k : ℝ)).n_ancilla = some (-(1.5 * (k : ℝ))) := by
  have hk0 : (0 : ℝ) < (k : ℝ) := by
    exact_mod_cast lt_of_le_of_lt (Nat.zero_le n) h2
  have hfloor : ⌊Real.sqrt ((n : ℝ) / (k : ℝ))⌋ = (0 : ℤ) := by
    apply floor_sqrt_eq
    · norm_num
    · rw [show (((0 : ℤ) : ℝ)) ^ 2 = 0 by norm_num]
      positivity
    · rw [show (((0 : ℤ) : ℝ) + 1) ^ 2 = 1 by norm_num, div_lt_one hk0]
      exact_mod_cast h2
  simp only [evaluate, codeLibrary, surfaceCalc, colorCalc, yoked1dCalc, yoked2dCalc,
    hfloor]
  norm_num
  exact ⟨mul_comm _ _, mul_comm _ _⟩

/-- Witness for C10 at (n, k, p) = (1, 2, 0.5). -/
theorem c10_witness :
    (evaluate CodeId.surface 0.5 ((1 : ℕ) : ℝ) ((2 : ℕ) : ℝ)).d = some 0 ∧
    (evaluate CodeId.surface 0.5 ((1 : ℕ) : ℝ) ((2 : ℕ) : ℝ)).n_ancilla =
      some (-((2 : ℕ) : ℝ)) ∧
    (evaluate CodeId.color 0.5 ((1 : ℕ) : ℝ) ((2 : ℕ) : ℝ)).d = some 0 ∧
    (evaluate CodeId.color 0.5 ((1 : ℕ) : ℝ) ((2 : ℕ) : ℝ)).n_ancilla =
      some (-((2 : ℕ) : ℝ)) ∧
    (evaluate CodeId.yoked_1d 0.5 ((1 : ℕ) : ℝ) ((2 : ℕ) : ℝ)).d = some 0 ∧
    (evaluate CodeId.yoked_1d 0.5 ((1 : ℕ) : ℝ) ((2 : ℕ) : ℝ)).n_ancilla =
      some (-(1.2 * ((2 : ℕ) : ℝ))) ∧
    (evaluate CodeId.yoked_2d 0.5 ((1 : ℕ) : ℝ) ((2 : ℕ) : ℝ)).d = some 0 ∧
    (evaluate CodeId.yoked_2d 0.5 ((1 : ℕ) : ℝ) ((2 : ℕ) : ℝ)).n_ancilla =
      some (-(1.5 * ((2 : ℕ) : ℝ))) :=
  c10_degenerate_inputs 1 2 0.5 (by norm_num) (by norm_num) (by norm_num) (by norm_num)

/-- Every registered threshold is positive. -/
theorem threshold_pos (c : CodeId) : 0 < (codeLibrary c).threshold := by
  cases c <;> norm_num [codeLibrary]

/-- The sampling floor 1e-6 lies below 0.99 * threshold for every code. -/
theorem floor_lt_cap (c : CodeId) : (1e-6 : ℝ) < (codeLibrary c).threshold * 0.99 := by
  cases c <;> norm_num [codeLibrary]

/-- The log-spacing width of the sampled p grid is positive. -/
theorem plot_width_pos (c : CodeId) :
    0 < Real.logb 10 ((codeLibrary c).threshold * 0.99) - Real.logb 10 1e-6 :=
  sub_pos.mpr (Real.logb_lt_logb (by norm_num) (by norm_num) (floor_lt_cap c))

/-- The sampled p values strictly increase with the index. -/
theorem plotP_strictMono (c : CodeId) {i j : ℕ} (h : i < j) :
    plotP c i < plotP c j := by
  have hΔ := plot_width_pos c
  apply Real.rpow_lt_rpow_of_exponent_lt (by norm_num)
  have hij : (i : ℝ) / 49 < (j : ℝ) / 49 := by
    apply div_lt_div_of_pos_right ?_ (by norm_num)
    exact_mod_cast h
  nlinarith

/-- Every sampled p value with index at most 49 is strictly below the
code's threshold. -/
theorem plotP_lt_threshold (c : CodeId) {i : ℕ} (hi : i ≤ 49) :
    plotP c i < (codeLibrary c).threshold := by
  have hΔ := plot_width_pos c
  have hthr := threshold_pos c
  have h1 : (i : ℝ) / 49 ≤ 1 := by
    rw [div_le_one (by norm_num)]
    exact_mod_cast hi
  have hexp : Real.logb 10 1e-6 +
      (Real.logb 10 ((codeLibrary c).threshold * 0.99) - Real.logb 10 1e-6) *
        ((i : ℝ) / 49) ≤ Real.logb 10 ((codeLibrary c).threshold * 0.99) := by
    nlinarith
  calc plotP c i ≤ (10 : ℝ) ^ Real.logb 10 ((codeLibrary c).threshold * 0.99) :=
      Real.rpow_le_rpow_of_exponent_le (by norm_num) hexp
    _ = (codeLibrary c).threshold * 0.99 :=
      Real.rpow_logb (by norm_num) (by norm_num) (by positivity)
    _ < (codeLibrary c).threshold := by nlinarith

/-- The p values emitted by the sampling loop form a mapped prefix of the
index range: the loop only ever truncates the tail. -/
theorem genLoop_fst (c : CodeId) (epsL k : ℝ) :
    ∀ (fuel i : ℕ), ∃ m, m ≤ fuel ∧
      (genLoop c epsL k fuel i).1 = (List.range' i m).map (plotP c) := by
  intro fuel
  induction fuel with
  | zero => intro i; exact ⟨0, le_refl 0, rfl⟩
  | succ fuel ih =>
      intro i
      simp only [genLoop]
      split
      · exact ⟨0, Nat.zero_le _, rfl⟩
      · split
        · rename_i mb hmb
          by_cases hbig : mb.2.n > 1e9
          · rw [if_pos hbig]
            refine ⟨1, by omega, ?_⟩
            rw [List.range'_succ]
            rfl
          · rw [if_neg hbig]
            obtain ⟨m, hm, heq⟩ := ih (i + 1)
            refine ⟨m + 1, by omega, ?_⟩
            rw [List.range'_succ, List.map_cons, ← heq]
        · obtain ⟨m, hm, heq⟩ := ih (i + 1)
          refine ⟨m + 1, by omega, ?_⟩
          rw [List.range'_succ, List.map_cons, ← heq]

/-- The mapped index ranges are strictly increasing lists. -/
theorem pairwise_plotP (c : CodeId) :
    ∀ (m i : ℕ), ((List.range' i m).map (plotP c)).Pairwise (· < ·) := by
  intro m
  induction m with
  | zero => intro i; simp
  | succ m ih =>
      intro i
      rw [List.range'_succ, List.map_cons]
      refine List.Pairwise.cons ?_ (ih (i + 1))
      intro x hx
      obtain ⟨j, hj, rfl⟩ := List.mem_map.mp hx
      have hj' : i + 1 ≤ j := (List.mem_range'_1.mp hj).1
      exact plotP_strictMono c (by omega)

/-- C5: for every registered code, target and k, the p values produced by
the curve sampler are strictly increasing and all strictly below the
code's threshold (log-spaced from 1e-6 up to 0.99 * threshold). -/
theorem c5_sample_p_invariant (c : CodeId) (epsL k : ℝ) :
    (generatePlotData c epsL k).1.Pairwise (· < ·) ∧
    ∀ p ∈ (generatePlotData c epsL k).1, p < (codeLibrary c).threshold := by
  obtain ⟨m, hm, heq⟩ := genLoop_fst c epsL k 50 0
  simp only [generatePlotData]
  rw [heq]
  refine ⟨pairwise_plotP c m 0, ?_⟩
  intro p hp
  obtain ⟨j, hj, rfl⟩ := List.mem_map.mp hp
  have hjm := (List.mem_range'_1.mp hj).2
  exact plotP_lt_threshold c (by omega)

end QRE
